import Mathlib

/-!
Verification of the HashPass server-side coordination engine.

This file gives a shallow embedding of the coordination core of the
HashPass invite-code dispenser (Python sources under `src/`):

* `src/core/crypto.py` — the pure hash verifier and the invite-code
  derivation (`verify_argon2_solution`, `generate_invite_code`);
* `src/core/state.py` — the puzzle state machine: the mining-time
  accumulator (`start_miner`, `stop_miner`, `get_current_mining_time`),
  the difficulty controller (`adjust_difficulty`), hashrate sample
  bookkeeping, session-token validation, and `reset_puzzle`;
* `src/api/routes.py` — the `/api/verify` critical section and the
  WebSocket hashrate message handler;
* `src/api/admin.py` — the control-plane difficulty update.

Conventions of the embedding:

* wall-clock timestamps, durations and reported hashrates are
  rationals (`ℚ`) — Python floats carrying exact measurement values;
* the difficulty controller, which computes a transcendental
  `math.log2`, is embedded over the reals with `Real.logb 2`;
  where the controller appears inside the verify pipeline its `log2`
  is an explicit function parameter, so pipeline theorems hold for
  every value the floating-point `math.log2` could return;
* the Argon2 primitive `argon2.low_level.hash_secret_raw` and
  HMAC-SHA256 are external library primitives and enter as
  uninterpreted function parameters;
* bytes are natural numbers (`List ℕ`, each entry < 256 in any run);
* Python dicts keyed by WebSocket objects become association lists
  keyed by `ℕ` connection identifiers.
-/

namespace HashPass

/-! ## Bytes, hex and URL-safe base64 (`src/core/crypto.py` helpers) -/

/-- Hex digit characters as Python `bytes.hex()` produces them (lowercase). -/
def hexDigitChar (n : ℕ) : Char := "0123456789abcdef".toList.getD n '0'

/-- Python `bytes.hex()`: two lowercase hex digits per byte, high nibble first. -/
def bytesToHex (bs : List ℕ) : String :=
  ⟨bs.foldr (fun b acc => hexDigitChar (b / 16) :: hexDigitChar (b % 16) :: acc) []⟩

/-- Value of one hex digit character as Python `int(s, 16)` reads it. -/
def hexVal (c : Char) : ℕ :=
  if '0' ≤ c ∧ c ≤ '9' then c.toNat - 48
  else if 'a' ≤ c ∧ c ≤ 'f' then c.toNat - 87
  else if 'A' ≤ c ∧ c ≤ 'F' then c.toNat - 55
  else 0

/-- Python `int(s, 16)` on a hex string. -/
def natOfHex (s : String) : ℕ := s.toList.foldl (fun a c => 16 * a + hexVal c) 0

/-- The URL-safe base64 alphabet (RFC 4648 §5), used by
`base64.urlsafe_b64encode`. -/
def b64Alphabet : List Char :=
  "ABCDEFGHIJKLMNOPQRSTUVWXYZabcdefghijklmnopqrstuvwxyz0123456789-_".toList

/-- The alphabet character of a 6-bit group. -/
def b64Char (n : ℕ) : Char := b64Alphabet.getD n 'A'

/-- `base64.urlsafe_b64encode` over bytes: blocks of three bytes become four
alphabet characters; a final block of one or two bytes is padded with `=`. -/
def b64urlEncode : List ℕ → List Char
  | [] => []
  | [b1] => [b64Char (b1 / 4), b64Char (b1 % 4 * 16), '=', '=']
  | [b1, b2] => [b64Char (b1 / 4), b64Char (b1 % 4 * 16 + b2 / 16), b64Char (b2 % 16 * 4), '=']
  | b1 :: b2 :: b3 :: rest =>
      b64Char (b1 / 4) :: b64Char (b1 % 4 * 16 + b2 / 16) ::
        b64Char (b2 % 16 * 4 + b3 / 64) :: b64Char (b3 % 64) :: b64urlEncode rest

/-- Python `str.rstrip("=")`: remove every trailing `=`. -/
def rstripEq (cs : List Char) : List Char := (cs.reverse.dropWhile (· == '=')).reverse

/-! ## The pure hash verifier (`src/core/crypto.py`, `verify_argon2_solution`) -/

/-- The raw Argon2d primitive `argon2.low_level.hash_secret_raw` with
`hash_len = 32` and `type = Type.D`: an external C library call, taken as an
uninterpreted function (secret, salt, time_cost, memory_cost, parallelism) ↦
raw output bytes. -/
abbrev Argon2Fn : Type := String → String → ℕ → ℕ → ℕ → List ℕ

/-- `verify_argon2_solution` of `src/core/crypto.py`.  The Argon2 library
call is the uninterpreted parameter `argon2`; `hmac.compare_digest` is
modelled by string equality (its constant-time execution, and the library
`TypeError` on non-ASCII input that the function's blanket `except` would
turn into a generic failure, are outside the model).  Leading zero bits are
`256 - hash_int.bit_length()` with `256` for the all-zero hash, exactly as
in the source. -/
def verify_argon2_solution (argon2 : Argon2Fn) (nonce : ℕ)
    (seed visitor_id trace_data submitted_hash : String) (difficulty : ℤ)
    (time_cost memory_cost parallelism : ℕ) : Bool × Option String :=
  let salt_raw := seed ++ visitor_id ++ trace_data
  let raw_hash := argon2 (toString nonce) salt_raw time_cost memory_cost parallelism
  let hash_hex := bytesToHex raw_hash
  if hash_hex ≠ submitted_hash then (false, some "Hash mismatch")
  else
    let hash_int := natOfHex hash_hex
    let leading_zero_bits : ℤ := if hash_int ≠ 0 then 256 - (Nat.size hash_int : ℤ) else 256
    if leading_zero_bits < difficulty then
      (false,
        some s!"Hash does not meet difficulty requirement ({difficulty} leading zero bits, found {leading_zero_bits})")
    else (true, none)

/-- The leading-zero-bit count the verifier uses for a given hex string:
`256 - bit_length` of its integer value, `256` when the value is zero. -/
def leadingZeroBits (hash_hex : String) : ℤ :=
  if natOfHex hash_hex ≠ 0 then 256 - (Nat.size (natOfHex hash_hex) : ℤ) else 256

/-! ## Invite-code derivation (`src/core/crypto.py`, `generate_invite_code`) -/

/-- The HMAC input bytes: UTF-8 of `f"{visitor_id}:{nonce}:{seed}"`. -/
def inviteMessageBytes (visitor_id : String) (nonce : ℕ) (seed : String) : List ℕ :=
  (s!"{visitor_id}:{nonce}:{seed}").toUTF8.toList.map (fun b => b.toNat)

/-- `generate_invite_code` of `src/core/crypto.py`: URL-safe base64 of
HMAC-SHA256(secret, `"visitor_id:nonce:seed"`), padding stripped, first 10
characters.  HMAC-SHA256 is the uninterpreted parameter `hmacSha256`
(key, message) ↦ digest bytes. -/
def generate_invite_code (hmacSha256 : List ℕ → List ℕ → List ℕ)
    (hmac_secret : List ℕ) (visitor_id : String) (nonce : ℕ) (seed : String) : String :=
  let data := inviteMessageBytes visitor_id nonce seed
  let hmac_hash := hmacSha256 hmac_secret data
  ⟨(rstripEq (b64urlEncode hmac_hash)).take 10⟩

/-! ### Facts about the base64 encoder -/

theorem b64Alphabet_length : b64Alphabet.length = 64 := by decide

theorem b64Char_ne_pad (n : ℕ) : b64Char n ≠ '=' := by
  unfold b64Char
  rcases lt_or_le n b64Alphabet.length with h | h
  · have hb : ∀ m, m < 64 → b64Alphabet.getD m 'A' ≠ '=' := by decide
    exact hb n (by simpa [b64Alphabet_length] using h)
  · rw [List.getD_eq_default _ _ h]; decide

theorem b64urlEncode_append :
    ∀ l₁ l₂ : List ℕ, l₁.length % 3 = 0 →
      b64urlEncode (l₁ ++ l₂) = b64urlEncode l₁ ++ b64urlEncode l₂
  | [], _, _ => by simp [b64urlEncode]
  | [_], _, h => by simp at h
  | [_, _], _, h => by simp at h
  | _ :: _ :: _ :: rest, l₂, h => by
      have h' : rest.length % 3 = 0 := by
        simp only [List.length_cons] at h; omega
      simp only [List.cons_append, b64urlEncode, List.append_eq]
      rw [b64urlEncode_append rest l₂ h']

theorem b64urlEncode_length :
    ∀ l : List ℕ, l.length % 3 = 0 → (b64urlEncode l).length = l.length / 3 * 4
  | [], _ => by simp [b64urlEncode]
  | [_], h => by simp at h
  | [_, _], h => by simp at h
  | _ :: _ :: _ :: rest, h => by
      have h' : rest.length % 3 = 0 := by
        simp only [List.length_cons] at h; omega
      simp only [b64urlEncode, List.length_cons]
      rw [b64urlEncode_length rest h']
      omega

theorem rstripEq_append_three (A : List Char) (x y z : Char) (hz : z ≠ '=') :
    rstripEq (A ++ [x, y, z, '=']) = A ++ [x, y, z] := by
  unfold rstripEq
  rw [List.reverse_append]
  simp only [List.reverse_cons, List.reverse_nil, List.nil_append, List.cons_append,
    List.dropWhile_cons]
  have h1 : ('=' == '=') = true := by decide
  have h2 : (z == '=') = false := by simpa using hz
  simp only [h1, h2, if_true, if_false, Bool.false_eq_true]
  rw [List.reverse_cons, List.reverse_cons, List.reverse_cons, List.reverse_reverse]
  simp

/-- C5: Invite-code determinism and format.  `generate_invite_code` is a
pure function of `(hmac_secret, visitor_id, nonce, seed)` (given the HMAC
primitive), and — because a 32-byte digest encodes to 44 base64 characters
of which only the final one is padding — stripping the padding before
taking 10 characters yields exactly the first 10 characters of the URL-safe
base64 encoding, a 10-character string. -/
theorem C5_invite_code_format (hmacSha256 : List ℕ → List ℕ → List ℕ)
    (hmac_secret : List ℕ) (visitor_id : String) (nonce : ℕ) (seed : String)
    (h32 : (hmacSha256 hmac_secret (inviteMessageBytes visitor_id nonce seed)).length = 32) :
    generate_invite_code hmacSha256 hmac_secret visitor_id nonce seed =
      ⟨(b64urlEncode (hmacSha256 hmac_secret (inviteMessageBytes visitor_id nonce seed))).take 10⟩ ∧
    (generate_invite_code hmacSha256 hmac_secret visitor_id nonce seed).length = 10 := by
  set d := hmacSha256 hmac_secret (inviteMessageBytes visitor_id nonce seed) with hd
  have hsplit : d = d.take 30 ++ d.drop 30 := (List.take_append_drop 30 d).symm
  have hlen30 : (d.take 30).length = 30 := by
    rw [List.length_take]; omega
  have hlen2 : (d.drop 30).length = 2 := by
    rw [List.length_drop]; omega
  obtain ⟨b1, b2, hb⟩ := List.length_eq_two.mp hlen2
  have henc : b64urlEncode d = b64urlEncode (d.take 30) ++
      [b64Char (b1 / 4), b64Char (b1 % 4 * 16 + b2 / 16), b64Char (b2 % 16 * 4), '='] := by
    conv_lhs => rw [hsplit, hb]
    rw [b64urlEncode_append _ _ (by rw [hlen30])]
    rfl
  have hAlen : (b64urlEncode (d.take 30)).length = 40 := by
    rw [b64urlEncode_length _ (by rw [hlen30]), hlen30]
  have hstrip : rstripEq (b64urlEncode d) =
      b64urlEncode (d.take 30) ++
        [b64Char (b1 / 4), b64Char (b1 % 4 * 16 + b2 / 16), b64Char (b2 % 16 * 4)] := by
    rw [henc]
    exact rstripEq_append_three _ _ _ _ (b64Char_ne_pad _)
  have htake : (rstripEq (b64urlEncode d)).take 10 = (b64urlEncode d).take 10 := by
    rw [hstrip, henc, List.take_append_of_le_length (by omega),
      List.take_append_of_le_length (by omega)]
  constructor
  · show (⟨(rstripEq (b64urlEncode d)).take 10⟩ : String) = ⟨(b64urlEncode d).take 10⟩
    rw [htake]
  · show (String.mk ((rstripEq (b64urlEncode d)).take 10)).length = 10
    have : ((rstripEq (b64urlEncode d)).take 10).length = 10 := by
      rw [htake, List.length_take, henc]
      simp [hAlen]
    simpa [String.length] using this

/-- C5 witness: the theorem applied at a constant HMAC oracle returning a
32-byte digest of zeros. -/
theorem C5_invite_code_format_witness :
    ((fun (_ : List ℕ) (_ : List ℕ) => List.replicate 32 0)
        (List.replicate 32 7) (inviteMessageBytes "v1" 42 "aa")).length = 32 ∧
    generate_invite_code (fun _ _ => List.replicate 32 0) (List.replicate 32 7) "v1" 42 "aa" =
      ⟨(b64urlEncode ((fun (_ : List ℕ) (_ : List ℕ) => List.replicate 32 0)
          (List.replicate 32 7) (inviteMessageBytes "v1" 42 "aa"))).take 10⟩ ∧
    (generate_invite_code (fun _ _ => List.replicate 32 0) (List.replicate 32 7) "v1" 42 "aa").length = 10 :=
  ⟨by decide,
    C5_invite_code_format (fun _ _ => List.replicate 32 0) (List.replicate 32 7) "v1" 42 "aa"
      (by decide)⟩

/-- C6: the hash verifier accepts exactly when the hex encoding of the
recomputed Argon2d hash equals the claimed hash and the 256-bit value has at
least `D` leading zero bits (`256 - bit_length`, `256` for the all-zero
hash); a hex mismatch fails with "Hash mismatch", a hash that is correct but
short of difficulty fails with the difficulty-requirement message. -/
theorem C6_hash_verifier (argon2 : Argon2Fn) (nonce : ℕ)
    (seed visitor_id trace_data submitted_hash : String) (D : ℤ) (t m p : ℕ) :
    let hash_hex := bytesToHex (argon2 (toString nonce) (seed ++ visitor_id ++ trace_data) t m p)
    ((verify_argon2_solution argon2 nonce seed visitor_id trace_data submitted_hash D t m p).1 = true
        ↔ hash_hex = submitted_hash ∧ D ≤ leadingZeroBits hash_hex) ∧
    (hash_hex ≠ submitted_hash →
      verify_argon2_solution argon2 nonce seed visitor_id trace_data submitted_hash D t m p =
        (false, some "Hash mismatch")) ∧
    (hash_hex = submitted_hash → leadingZeroBits hash_hex < D →
      verify_argon2_solution argon2 nonce seed visitor_id trace_data submitted_hash D t m p =
        (false,
          some s!"Hash does not meet difficulty requirement ({D} leading zero bits, found {leadingZeroBits hash_hex})")) := by
  intro hash_hex
  have hdef : verify_argon2_solution argon2 nonce seed visitor_id trace_data submitted_hash D t m p =
      if hash_hex ≠ submitted_hash then (false, some "Hash mismatch")
      else if leadingZeroBits hash_hex < D then
        (false,
          some s!"Hash does not meet difficulty requirement ({D} leading zero bits, found {leadingZeroBits hash_hex})")
      else (true, none) := rfl
  rw [hdef]
  by_cases heq : hash_hex = submitted_hash
  · rw [if_neg (by simpa using heq)]
    by_cases hlt : leadingZeroBits hash_hex < D
    · rw [if_pos hlt]
      refine ⟨?_, fun hne => absurd heq hne, fun _ _ => rfl⟩
      constructor
      · intro h; exact absurd h (by simp)
      · rintro ⟨-, hle⟩; omega
    · rw [if_neg hlt]
      exact ⟨⟨fun _ => ⟨heq, not_lt.mp hlt⟩, fun _ => rfl⟩,
        fun hne => absurd heq hne, fun _ hlt2 => absurd hlt2 hlt⟩
  · rw [if_pos heq]
    refine ⟨?_, fun _ => rfl, fun he => absurd he heq⟩
    constructor
    · intro h; exact absurd h (by simp)
    · rintro ⟨he, -⟩; exact absurd he heq

/-! ## The difficulty controller (`src/core/state.py`, `adjust_difficulty`)

Python's `round()` rounds half to even; `math.log2` is `Real.logb 2`;
the float literal `0.1` of `_calculate_smooth_adjustment` is the real
`1/10`. -/

/-- Python `round()`: nearest integer, ties to even. -/
noncomputable def pyRound (x : ℝ) : ℤ :=
  if Int.fract x = 1 / 2 then (if 2 ∣ ⌊x⌋ then ⌊x⌋ else ⌊x⌋ + 1) else round x

/-- The difficulty-relevant state of `SystemState` (`src/core/state.py`):
`difficulty`, its clamp range, the float accumulator, the EMA and the fixed
controller parameters. -/
structure DiffState where
  difficulty : ℤ
  min_difficulty : ℤ
  max_difficulty : ℤ
  difficulty_float : ℝ
  target_time : ℤ
  ema_alpha : ℝ
  ema_solve_time : Option ℝ
  last_solve_time : Option ℝ

/-- `SystemState._calculate_smooth_adjustment`:
`step = log2(target_time / max(effective_time, 0.1))` clamped to
`[-4.0, +4.0]`. -/
noncomputable def calculate_smooth_adjustment (target_time : ℤ) (effective_time : ℝ) : ℝ :=
  let ratio := (target_time : ℝ) / max effective_time 0.1
  let step := Real.logb 2 ratio
  max (-4) (min step 4)

/-- `SystemState.adjust_difficulty`: update the EMA, add the clamped smooth
step into `difficulty_float` clamped to `[min_difficulty, max_difficulty]`,
round into `difficulty`.  (The returned log tuple
`(old, new, reason)` is presentation only and omitted.) -/
noncomputable def adjust_difficulty (st : DiffState) (solve_time : ℝ) : DiffState :=
  let ema := match st.ema_solve_time with
    | none => solve_time
    | some e => st.ema_alpha * solve_time + (1 - st.ema_alpha) * e
  let step := calculate_smooth_adjustment st.target_time ema
  let new_float := max (st.min_difficulty : ℝ) (min (st.difficulty_float + step) (st.max_difficulty : ℝ))
  { st with ema_solve_time := some ema,
            difficulty_float := new_float,
            difficulty := pyRound new_float,
            last_solve_time := some solve_time }

/-- The controller step exactly as claim C4 words it — for comparison with
`adjust_difficulty`.  It differs from the source in one place: the claim's
step is `clamp(log2(target_time / ema_solve_time), -4, +4)`, with no
`max(·, 0.1)` floor under the EMA. -/
noncomputable def claimAdjustDifficulty (st : DiffState) (solve_time : ℝ) : DiffState :=
  let ema := match st.ema_solve_time with
    | none => solve_time
    | some e => st.ema_alpha * solve_time + (1 - st.ema_alpha) * e
  let step := max (-4) (min (Real.logb 2 ((st.target_time : ℝ) / ema)) 4)
  let new_float := max (st.min_difficulty : ℝ) (min (st.difficulty_float + step) (st.max_difficulty : ℝ))
  { st with ema_solve_time := some ema,
            difficulty_float := new_float,
            difficulty := pyRound new_float,
            last_solve_time := some solve_time }

/-! ## The control-plane difficulty update (`src/api/admin.py`,
`update_difficulty`)

The handler mutates the live state field by field and returns an error
dict from the middle of that sequence when a value is out of its sanity
range, so an error return can leave a partial mutation behind.  It never
touches `difficulty_float`. -/

/-- Request body `AdminDifficultyUpdate` (`src/models/schemas.py`). -/
structure AdminDifficultyUpdate where
  difficulty : Option ℤ
  min_difficulty : Option ℤ
  max_difficulty : Option ℤ

/-- Steps of `update_difficulty` after the range swap: validate and set
`difficulty` itself. -/
def update_difficulty_set (st : DiffState) (body : AdminDifficultyUpdate) :
    DiffState × Option String :=
  let st := if st.min_difficulty > st.max_difficulty then
      { st with min_difficulty := st.max_difficulty, max_difficulty := st.min_difficulty }
    else st
  match body.difficulty with
  | some d =>
      if d < st.min_difficulty ∨ d > st.max_difficulty then
        (st, some "difficulty must be between min and max")
      else ({ st with difficulty := d }, none)
  | none => (st, none)

/-- Steps of `update_difficulty` from the `max_difficulty` validation on. -/
def update_difficulty_max (st : DiffState) (body : AdminDifficultyUpdate) :
    DiffState × Option String :=
  match body.max_difficulty with
  | some M =>
      if M < 1 ∨ M > 32 then (st, some "max_difficulty must be between 1 and 32")
      else update_difficulty_set { st with max_difficulty := M } body
  | none => update_difficulty_set st body

/-- `update_difficulty` of `src/api/admin.py` (the difficulty-state
mutation; the subsequent puzzle reset and broadcast do not touch these
fields).  An error outcome returns the state as mutated so far together
with the error message. -/
def update_difficulty (st : DiffState) (body : AdminDifficultyUpdate) :
    DiffState × Option String :=
  match body.min_difficulty with
  | some m =>
      if m < 1 ∨ m > 32 then (st, some "min_difficulty must be between 1 and 32")
      else update_difficulty_max { st with min_difficulty := m } body
  | none => update_difficulty_max st body

/-! ### Rounding facts -/

theorem floor_le_pyRound (x : ℝ) : ⌊x⌋ ≤ pyRound x := by
  unfold pyRound
  split_ifs with h1 h2
  · exact le_refl _
  · omega
  · rw [round_eq]
    exact Int.floor_le_floor (by linarith)

theorem pyRound_le_ceil (x : ℝ) : pyRound x ≤ ⌈x⌉ := by
  unfold pyRound
  split_ifs with h1 h2
  · exact Int.floor_le_ceil x
  · have hx : (⌊x⌋ : ℝ) < x := by
      have h1' : x - ⌊x⌋ = 1 / 2 := by rw [Int.self_sub_floor]; exact h1
      linarith
    have : ⌊x⌋ < ⌈x⌉ := Int.lt_ceil.mpr hx
    omega
  · rw [round_eq]
    have hlt : x + 1 / 2 < ((⌈x⌉ + 1 : ℤ) : ℝ) := by push_cast; linarith [Int.le_ceil x]
    have := Int.floor_lt.mpr hlt
    omega

/-- The EMA value `adjust_difficulty` computes before stepping. -/
noncomputable def emaUpdate (st : DiffState) (solve_time : ℝ) : ℝ :=
  match st.ema_solve_time with
  | none => solve_time
  | some e => st.ema_alpha * solve_time + (1 - st.ema_alpha) * e

theorem adjust_ema_eq (st : DiffState) (t : ℝ) :
    (adjust_difficulty st t).ema_solve_time = some (emaUpdate st t) := rfl

theorem adjust_df_eq (st : DiffState) (t : ℝ) :
    (adjust_difficulty st t).difficulty_float =
      max (st.min_difficulty : ℝ)
        (min (st.difficulty_float + calculate_smooth_adjustment st.target_time (emaUpdate st t))
          (st.max_difficulty : ℝ)) := rfl

theorem adjust_difficulty_round (st : DiffState) (t : ℝ) :
    (adjust_difficulty st t).difficulty = pyRound ((adjust_difficulty st t).difficulty_float) := rfl

theorem adjust_min_eq (st : DiffState) (t : ℝ) :
    (adjust_difficulty st t).min_difficulty = st.min_difficulty := rfl

theorem adjust_max_eq (st : DiffState) (t : ℝ) :
    (adjust_difficulty st t).max_difficulty = st.max_difficulty := rfl

/-- The clamped step is between `-4` and `4` whatever `log2` returns. -/
theorem smooth_adjustment_bounds (target_time : ℤ) (e : ℝ) :
    -4 ≤ calculate_smooth_adjustment target_time e ∧ calculate_smooth_adjustment target_time e ≤ 4 :=
  ⟨le_max_left _ _, max_le (by norm_num) (min_le_right _ _)⟩

/-- Clamping into `[lo, hi]` and rounding lands inside `[lo, hi]`. -/
theorem clamp_pyRound_bounds (lo hi : ℤ) (x : ℝ) (h : lo ≤ hi) :
    lo ≤ pyRound (max (lo : ℝ) (min x (hi : ℝ))) ∧
    pyRound (max (lo : ℝ) (min x (hi : ℝ))) ≤ hi := by
  constructor
  · exact le_trans (Int.le_floor.mpr (le_max_left _ _)) (floor_le_pyRound _)
  · have h1 : max (lo : ℝ) (min x (hi : ℝ)) ≤ (hi : ℝ) :=
      max_le (by exact_mod_cast h) (min_le_right _ _)
    exact le_trans (pyRound_le_ceil _) (Int.ceil_le.mpr h1)

/-- After the range swap of `update_difficulty`, min is at most max. -/
theorem swap_minmax_le (st : DiffState) :
    (if st.min_difficulty > st.max_difficulty then
        { st with min_difficulty := st.max_difficulty, max_difficulty := st.min_difficulty }
      else st).min_difficulty ≤
    (if st.min_difficulty > st.max_difficulty then
        { st with min_difficulty := st.max_difficulty, max_difficulty := st.min_difficulty }
      else st).max_difficulty := by
  split_ifs with h
  · exact le_of_lt h
  · exact not_lt.mp h

theorem update_difficulty_set_minmax (st : DiffState) (body : AdminDifficultyUpdate) :
    (update_difficulty_set st body).1.min_difficulty ≤
    (update_difficulty_set st body).1.max_difficulty := by
  unfold update_difficulty_set
  cases body.difficulty <;> (try dsimp only) <;> split_ifs <;> (try dsimp only) <;> omega

theorem update_difficulty_max_minmax (st : DiffState) (body : AdminDifficultyUpdate)
    (hok : (update_difficulty_max st body).2 = none) :
    (update_difficulty_max st body).1.min_difficulty ≤
    (update_difficulty_max st body).1.max_difficulty := by
  unfold update_difficulty_max at *
  cases hM : body.max_difficulty with
  | none =>
      rw [hM] at hok
      exact update_difficulty_set_minmax st body
  | some M =>
      rw [hM] at hok
      dsimp only at hok ⊢
      split_ifs at hok ⊢ with hbad
      exact update_difficulty_set_minmax _ body

/-- The concrete difficulty state of the C3 counterexample: the server
defaults `difficulty = 12`, `min = 4`, `max = 24`, `difficulty_float = 12`. -/
noncomputable def c3State : DiffState :=
  { difficulty := 12, min_difficulty := 4, max_difficulty := 24, difficulty_float := 12,
    target_time := 75, ema_alpha := 1 / 3, ema_solve_time := none, last_solve_time := none }

/-- The C3 counterexample request body: raise `min_difficulty` to 20, touch
nothing else. -/
def c3Body : AdminDifficultyUpdate :=
  { difficulty := none, min_difficulty := some 20, max_difficulty := none }

/-- C3 counterexample: the control-plane `update_difficulty` breaks
`D_min ≤ difficulty`.  From the default state (difficulty 12, range [4, 24])
an admin request setting `min_difficulty := 20` succeeds (no error) yet
leaves `difficulty = 12 < 20 = D_min`; `difficulty_float` is likewise never
touched by the handler. -/
theorem C3_counterexample :
    (update_difficulty c3State c3Body).2 = none ∧
    ¬ ((update_difficulty c3State c3Body).1.min_difficulty ≤
        (update_difficulty c3State c3Body).1.difficulty) := by
  have hstep : update_difficulty c3State c3Body =
      ({ c3State with min_difficulty := 20 }, none) := by
    show update_difficulty_max { c3State with min_difficulty := 20 } c3Body = _
    show update_difficulty_set { c3State with min_difficulty := 20 } c3Body = _
    unfold update_difficulty_set
    norm_num [c3State, c3Body]
  rw [hstep]
  exact ⟨rfl, by norm_num [c3State]⟩

/-- C3 (amended): the difficulty invariant
`D_min ≤ difficulty ≤ D_max ∧ ⌊difficulty_float⌋ ≤ difficulty ≤ ⌈difficulty_float⌉`
is established by every `adjust_difficulty` call (solve or timeout) whenever
`D_min ≤ D_max`; the control-plane `update_difficulty` guarantees only
`D_min ≤ D_max` on a successful return — it re-clamps neither `difficulty`
nor `difficulty_float`, so the remaining conjuncts can fail after a
control-plane mutation (see the counterexample). -/
theorem C3_difficulty_invariant :
    (∀ (st : DiffState) (t : ℝ), st.min_difficulty ≤ st.max_difficulty →
      (adjust_difficulty st t).min_difficulty ≤ (adjust_difficulty st t).difficulty ∧
      (adjust_difficulty st t).difficulty ≤ (adjust_difficulty st t).max_difficulty ∧
      ⌊(adjust_difficulty st t).difficulty_float⌋ ≤ (adjust_difficulty st t).difficulty ∧
      (adjust_difficulty st t).difficulty ≤ ⌈(adjust_difficulty st t).difficulty_float⌉) ∧
    (∀ (st : DiffState) (body : AdminDifficultyUpdate),
      (update_difficulty st body).2 = none →
      (update_difficulty st body).1.min_difficulty ≤
        (update_difficulty st body).1.max_difficulty) := by
  constructor
  · intro st t h
    have hb := clamp_pyRound_bounds st.min_difficulty st.max_difficulty
      (st.difficulty_float + calculate_smooth_adjustment st.target_time (emaUpdate st t)) h
    refine ⟨?_, ?_, ?_, ?_⟩
    · rw [adjust_min_eq, adjust_difficulty_round, adjust_df_eq]; exact hb.1
    · rw [adjust_max_eq, adjust_difficulty_round, adjust_df_eq]; exact hb.2
    · rw [adjust_difficulty_round, adjust_df_eq]; exact floor_le_pyRound _
    · rw [adjust_difficulty_round, adjust_df_eq]; exact pyRound_le_ceil _
  · intro st body hok
    unfold update_difficulty at *
    cases hm : body.min_difficulty with
    | none =>
        rw [hm] at hok
        exact update_difficulty_max_minmax st body hok
    | some m =>
        rw [hm] at hok
        dsimp only at hok ⊢
        split_ifs at hok ⊢ with hbad
        exact update_difficulty_max_minmax _ body hok

/-! ### The controller step (claim C4) -/

theorem logb_two_four : Real.logb 2 4 = 2 := by
  rw [show (4 : ℝ) = 2 ^ (2 : ℕ) by norm_num, Real.logb_pow,
    Real.logb_self_eq_one (by norm_num)]
  norm_num

theorem logb_two_sixteen : Real.logb 2 16 = 4 := by
  rw [show (16 : ℝ) = 2 ^ (4 : ℕ) by norm_num, Real.logb_pow,
    Real.logb_self_eq_one (by norm_num)]
  norm_num

theorem logb_two_ten_lt_four : Real.logb 2 10 < 4 := by
  have h := Real.logb_lt_logb (b := 2) (by norm_num) (by norm_num : (0 : ℝ) < 10)
    (by norm_num : (10 : ℝ) < 16)
  rwa [logb_two_sixteen] at h

theorem logb_two_ten_pos : 0 < Real.logb 2 10 :=
  Real.logb_pos (by norm_num) (by norm_num)

theorem claim_df_eq (st : DiffState) (t : ℝ) :
    (claimAdjustDifficulty st t).difficulty_float =
      max (st.min_difficulty : ℝ)
        (min (st.difficulty_float +
            max (-4) (min (Real.logb 2 ((st.target_time : ℝ) / emaUpdate st t)) 4))
          (st.max_difficulty : ℝ)) := rfl

/-- The concrete difficulty state of the C4 counterexample: a configured
target time of 1 second, EMA not yet set. -/
noncomputable def c4State : DiffState :=
  { difficulty := 12, min_difficulty := 4, max_difficulty := 24, difficulty_float := 12,
    target_time := 1, ema_alpha := 1 / 3, ema_solve_time := none, last_solve_time := none }

/-- C4 counterexample: the claim's step formula has no `max(·, 0.1)` floor
under the EMA, the source's does.  With `target_time = 1` and a first solve
of `1/16` s the source computes `step = log2(1 / max(1/16, 0.1)) = log2 10 < 4`
while the claim's formula gives `clamp(log2 16) = 4`, so the two
`difficulty_float` results differ (`12 + log2 10 ≠ 16`). -/
theorem C4_counterexample :
    (adjust_difficulty c4State (1 / 16)).difficulty_float ≠
    (claimAdjustDifficulty c4State (1 / 16)).difficulty_float := by
  have hema : emaUpdate c4State (1 / 16) = 1 / 16 := rfl
  have hstep : calculate_smooth_adjustment c4State.target_time (emaUpdate c4State (1 / 16)) =
      Real.logb 2 10 := by
    rw [hema]
    simp only [calculate_smooth_adjustment]
    have h1 : max (1 / 16 : ℝ) 0.1 = 0.1 := max_eq_right (by norm_num)
    rw [h1]
    have h2 : ((c4State.target_time : ℤ) : ℝ) / (0.1 : ℝ) = 10 := by
      norm_num [c4State]
    rw [h2, min_eq_left (le_of_lt logb_two_ten_lt_four),
      max_eq_right (by linarith [logb_two_ten_pos])]
  have hcode : (adjust_difficulty c4State (1 / 16)).difficulty_float = 12 + Real.logb 2 10 := by
    rw [adjust_df_eq, hstep]
    have hdf : c4State.difficulty_float = 12 := rfl
    rw [hdf]
    rw [min_eq_left (by push_cast [c4State]; linarith [logb_two_ten_lt_four]),
      max_eq_right (by push_cast [c4State]; linarith [logb_two_ten_pos])]
  have hclaim : (claimAdjustDifficulty c4State (1 / 16)).difficulty_float = 16 := by
    rw [claim_df_eq, hema]
    have h2 : ((c4State.target_time : ℤ) : ℝ) / (1 / 16 : ℝ) = 16 := by
      norm_num [c4State]
    rw [h2, logb_two_sixteen]
    have hdf : c4State.difficulty_float = 12 := rfl
    rw [hdf]
    push_cast [c4State]
    norm_num
  rw [hcode, hclaim]
  intro h
  have : Real.logb 2 10 = 4 := by linarith
  linarith [logb_two_ten_lt_four]

/-- C4 (amended): one `adjust_difficulty` call updates the EMA exactly as the
claim states (first solve sets it, later solves blend with `α`); the step the
source adds is `clamp(log2(target_time / max(ema, 0.1)), -4, +4)` — the
claim's formula without the `0.1` floor under the EMA is what the
counterexample refutes; `difficulty` becomes the (half-to-even) rounding of
the new `difficulty_float`; the float moves by at most 4 per call when it
starts inside `[D_min, D_max]`; and with `target_time = 75`, EMA unset or
already 300, every 300-second solve keeps the EMA at 300 and lowers
`difficulty_float` by exactly 2 while room above `D_min` remains. -/
theorem C4_difficulty_controller (st : DiffState) (t : ℝ)
    (hlo : (st.min_difficulty : ℝ) ≤ st.difficulty_float)
    (hhi : st.difficulty_float ≤ (st.max_difficulty : ℝ)) :
    |(adjust_difficulty st t).difficulty_float - st.difficulty_float| ≤ 4 ∧
    (st.ema_solve_time = none → (adjust_difficulty st t).ema_solve_time = some t) ∧
    (∀ e : ℝ, st.ema_solve_time = some e →
      (adjust_difficulty st t).ema_solve_time =
        some (st.ema_alpha * t + (1 - st.ema_alpha) * e)) ∧
    (adjust_difficulty st t).difficulty = pyRound ((adjust_difficulty st t).difficulty_float) ∧
    (st.target_time = 75 → st.ema_alpha = 1 / 3 → t = 300 →
      (st.ema_solve_time = none ∨ st.ema_solve_time = some 300) →
      (st.min_difficulty : ℝ) ≤ st.difficulty_float - 2 →
      (adjust_difficulty st t).ema_solve_time = some 300 ∧
      (adjust_difficulty st t).difficulty_float = st.difficulty_float - 2) := by
  have hs := smooth_adjustment_bounds st.target_time (emaUpdate st t)
  refine ⟨?_, ?_, ?_, adjust_difficulty_round st t, ?_⟩
  · rw [adjust_df_eq]
    set s := calculate_smooth_adjustment st.target_time (emaUpdate st t) with hsdef
    refine abs_le.mpr ⟨?_, ?_⟩
    · have hmin : st.difficulty_float - 4 ≤ min (st.difficulty_float + s) (st.max_difficulty : ℝ) :=
        le_min (by linarith [hs.1]) (by linarith)
      have := le_trans hmin (le_max_right (st.min_difficulty : ℝ) _)
      linarith
    · have hmax : max (st.min_difficulty : ℝ)
          (min (st.difficulty_float + s) (st.max_difficulty : ℝ)) ≤ st.difficulty_float + 4 :=
        max_le (by linarith) (le_trans (min_le_left _ _) (by linarith [hs.2]))
      linarith
  · intro hE
    rw [adjust_ema_eq]
    unfold emaUpdate
    rw [hE]
  · intro e hE
    rw [adjust_ema_eq]
    unfold emaUpdate
    rw [hE]
  · intro h75 halpha ht hE hroom
    have hema300 : emaUpdate st t = 300 := by
      unfold emaUpdate
      rcases hE with hE | hE <;> rw [hE]
      · exact ht
      · rw [halpha, ht]; norm_num
    have hstep : calculate_smooth_adjustment st.target_time (emaUpdate st t) = -2 := by
      rw [hema300]
      simp only [calculate_smooth_adjustment]
      have h1 : max (300 : ℝ) 0.1 = 300 := max_eq_left (by norm_num)
      rw [h1, h75]
      have h2 : ((75 : ℤ) : ℝ) / (300 : ℝ) = 1 / 4 := by norm_num
      rw [h2, show (1 / 4 : ℝ) = (4 : ℝ)⁻¹ by norm_num, Real.logb_inv, logb_two_four]
      norm_num
    constructor
    · rw [adjust_ema_eq, hema300]
    · rw [adjust_df_eq, hstep]
      rw [min_eq_left (by linarith), max_eq_right (by linarith)]
      ring

/-- C4 witness: the theorem applied at a concrete state inside its clamp
range (difficulty_float 12 in [4, 24]), with the 75/300 scenario active. -/
theorem C4_difficulty_controller_witness :
    ((c3State.min_difficulty : ℝ) ≤ c3State.difficulty_float ∧
      c3State.difficulty_float ≤ (c3State.max_difficulty : ℝ)) ∧
    (|(adjust_difficulty c3State 300).difficulty_float - c3State.difficulty_float| ≤ 4 ∧
      (c3State.ema_solve_time = none →
        (adjust_difficulty c3State 300).ema_solve_time = some 300) ∧
      (∀ e : ℝ, c3State.ema_solve_time = some e →
        (adjust_difficulty c3State 300).ema_solve_time =
          some (c3State.ema_alpha * 300 + (1 - c3State.ema_alpha) * e)) ∧
      (adjust_difficulty c3State 300).difficulty =
        pyRound ((adjust_difficulty c3State 300).difficulty_float) ∧
      (c3State.target_time = 75 → c3State.ema_alpha = 1 / 3 → (300 : ℝ) = 300 →
        (c3State.ema_solve_time = none ∨ c3State.ema_solve_time = some 300) →
        (c3State.min_difficulty : ℝ) ≤ c3State.difficulty_float - 2 →
        (adjust_difficulty c3State 300).ema_solve_time = some 300 ∧
        (adjust_difficulty c3State 300).difficulty_float = c3State.difficulty_float - 2)) :=
  ⟨⟨by norm_num [c3State], by norm_num [c3State]⟩,
    C4_difficulty_controller c3State 300 (by norm_num [c3State]) (by norm_num [c3State])⟩

/-! ## Broadcast lock discipline (claim C2)

The three puzzle-reset code paths, instrumented as sequences of primitive
actions around the single mutex M (`state.lock`).  Each trace is read off
the source control flow:

* `verify_solution` (`src/api/routes.py` 222–302): everything from the
  double-check to `start_timeout_checker` — including
  `broadcast_puzzle_reset()` at line 299, which itself builds the snapshot
  via `get_puzzle_reset_message()` — runs inside `async with state.lock`;
  only the audit-log append (line 305) follows the release.
* `SystemState._check_timeout` (`src/core/state.py` 293–349): difficulty
  adjustment, `reset_puzzle`, and the snapshot (line 333) run inside
  `async with self.lock`; the `break` at line 339 then exits the whole
  `while True` loop (not just the `with` block), so the
  `broadcast_raw(reset_msg)` call at line 342 — placed inside the loop
  body after the `with` block — is never executed on the reset path: the
  watcher resets the puzzle and releases M without broadcasting anything.
  (Line 342 is reached only when the double-check at line 314 fails, where
  `reset_msg` is unbound and the line raises a `NameError` swallowed by the
  `except` at line 348 — again no broadcast.)
* the control-plane reset paths (`src/api/admin.py`: `update_difficulty`,
  `update_target_time`, `update_argon2`, `update_worker_count`,
  `reset_puzzle`): each does `async with state.lock: reset_puzzle();
  broadcast_puzzle_reset(); start_timeout_checker()` — broadcast inside
  the lock. -/

/-- Primitive actions of a puzzle-reset path. -/
inductive ResetAction
  | acquire
  | release
  | resetPuzzle
  | snapshot
  | broadcast
deriving DecidableEq

/-- The winning-submission path of `verify_solution`. -/
def verify_success_trace : List ResetAction :=
  [.acquire, .resetPuzzle, .snapshot, .broadcast, .release]

/-- The timeout-watcher reset path of `_check_timeout` as executed: the
`break` inside the lock block exits the watcher loop, so the broadcast call
after the block is dead code and no `broadcast` action occurs. -/
def timeout_reset_trace : List ResetAction :=
  [.acquire, .resetPuzzle, .snapshot, .release]

/-- The control-plane reset path (`/api/admin/reset-puzzle` and every
parameter-mutation endpoint). -/
def admin_reset_trace : List ResetAction :=
  [.acquire, .resetPuzzle, .snapshot, .broadcast, .release]

/-- Every `broadcast` in the trace happens at lock depth 0. -/
def broadcastsOutsideLock : ℕ → List ResetAction → Bool
  | _, [] => true
  | d, .acquire :: r => broadcastsOutsideLock (d + 1) r
  | d, .release :: r => broadcastsOutsideLock (d - 1) r
  | d, .broadcast :: r => decide (d = 0) && broadcastsOutsideLock d r
  | d, _ :: r => broadcastsOutsideLock d r

/-- Every `snapshot` in the trace happens at positive lock depth. -/
def snapshotsInsideLock : ℕ → List ResetAction → Bool
  | _, [] => true
  | d, .acquire :: r => snapshotsInsideLock (d + 1) r
  | d, .release :: r => snapshotsInsideLock (d - 1) r
  | d, .snapshot :: r => decide (0 < d) && snapshotsInsideLock d r
  | d, _ :: r => snapshotsInsideLock d r

/-- C2 counterexample: the claim — that every reset path broadcasts only
after M is released — fails on the concrete winning-submission path (and on
the control-plane path): `broadcast_puzzle_reset()` is called inside
`async with state.lock`.  (The timeout-watcher path deviates in the other
direction: it performs no broadcast at all.) -/
theorem C2_broadcast_counterexample :
    ¬ (broadcastsOutsideLock 0 verify_success_trace = true ∧
       broadcastsOutsideLock 0 timeout_reset_trace = true ∧
       broadcastsOutsideLock 0 admin_reset_trace = true) := by
  decide

/-- C2 (amended): the reset snapshot is built while M is held in all three
reset paths; the winning-submission path and the control-plane reset paths
perform the PUZZLE_RESET broadcast while M is still held; and the
timeout-watcher reset path performs no broadcast at all — its `break` exits
the watcher loop before the `broadcast_raw` call, which is dead code. -/
theorem C2_broadcast_lock_discipline :
    snapshotsInsideLock 0 verify_success_trace = true ∧
    snapshotsInsideLock 0 timeout_reset_trace = true ∧
    snapshotsInsideLock 0 admin_reset_trace = true ∧
    ResetAction.broadcast ∉ timeout_reset_trace ∧
    broadcastsOutsideLock 0 verify_success_trace = false ∧
    broadcastsOutsideLock 0 admin_reset_trace = false := by
  decide

/-! ## The mining-time accumulator (`src/core/state.py`)

`active_miners` holds the connections that reported `mining_start`;
connections are `ℕ` identifiers.  `time.time()` values are the `now`
arguments. -/

/-- The mining-timer fields of `SystemState`. -/
structure MiningState where
  active_miners : Finset ℕ
  total_mining_time : ℚ
  last_mining_state_change : Option ℚ
  is_mining_active : Bool
deriving DecidableEq

/-- The timer fields as `__init__` and `reset_puzzle` set them. -/
def initMiningState : MiningState :=
  { active_miners := ∅, total_mining_time := 0,
    last_mining_state_change := none, is_mining_active := false }

/-- `SystemState.start_miner`: a no-op for a miner already in the set;
otherwise, when the set was empty, mark mining active and stamp
`last_mining_state_change` before inserting the miner. -/
def start_miner (s : MiningState) (ws : ℕ) (now : ℚ) : MiningState :=
  if ws ∈ s.active_miners then s
  else if s.active_miners.card = 0 then
    { s with is_mining_active := true, last_mining_state_change := some now,
             active_miners := insert ws s.active_miners }
  else { s with active_miners := insert ws s.active_miners }

/-- `SystemState._pause_mining_timer`. -/
def pause_mining_timer (s : MiningState) (now : ℚ) : MiningState :=
  if s.is_mining_active then
    match s.last_mining_state_change with
    | some t0 =>
        { s with total_mining_time := s.total_mining_time + (now - t0),
                 is_mining_active := false, last_mining_state_change := none }
    | none => s
  else s

/-- `SystemState.stop_miner` (also what the WebSocket disconnect cleanup
invokes for the closing connection): a no-op for a miner not in the set;
otherwise remove it and, when the set became empty while mining was active,
pause the timer. -/
def stop_miner (s : MiningState) (ws : ℕ) (now : ℚ) : MiningState :=
  if ws ∉ s.active_miners then s
  else if (s.active_miners.erase ws).card = 0 ∧ s.is_mining_active then
    pause_mining_timer { s with active_miners := s.active_miners.erase ws } now
  else { s with active_miners := s.active_miners.erase ws }

/-- `SystemState.get_current_mining_time`. -/
def get_current_mining_time (s : MiningState) (now : ℚ) : ℚ :=
  if s.is_mining_active then
    match s.last_mining_state_change with
    | some t0 => s.total_mining_time + (now - t0)
    | none => s.total_mining_time
  else s.total_mining_time

/-- A timer event received on the WebSocket: `mining_start`, or
`mining_stop`/disconnect. -/
inductive MEvent
  | start (ws : ℕ)
  | stop (ws : ℕ)
deriving DecidableEq

/-- One timestamped event applied to the timer state. -/
def stepMiner (s : MiningState) (e : ℚ × MEvent) : MiningState :=
  match e with
  | (t, .start ws) => start_miner s ws t
  | (t, .stop ws) => stop_miner s ws t

/-- A whole event history applied in order. -/
def runMiner (s : MiningState) (evs : List (ℚ × MEvent)) : MiningState :=
  evs.foldl stepMiner s

/-- The effect of an event on the active-miner set alone. -/
def applyMEvent (a : Finset ℕ) : MEvent → Finset ℕ
  | .start ws => insert ws a
  | .stop ws => a.erase ws

/-- Timestamps of an event history are non-decreasing, start no earlier than
`t0` and end no later than `now`. -/
def Chrono : ℚ → List (ℚ × MEvent) → ℚ → Prop
  | t0, [], now => t0 ≤ now
  | t0, (t, _) :: rest, now => t0 ≤ t ∧ Chrono t rest now

/-- The specification value of the accumulator: the summed lengths of the
intervals during which the active-miner set is non-empty. -/
def specMiningTime : ℚ → Finset ℕ → List (ℚ × MEvent) → ℚ → ℚ
  | t0, a, [], now => if a.Nonempty then now - t0 else 0
  | t0, a, (t, e) :: rest, now =>
      (if a.Nonempty then t - t0 else 0) + specMiningTime t (applyMEvent a e) rest now

/-- The timer-state invariant at time `t0`: the `is_mining_active` flag
tracks non-emptiness of the active set, and `last_mining_state_change` is
set (to a past instant) exactly while mining is active. -/
def GoodMiningState (s : MiningState) (t0 : ℚ) : Prop :=
  (s.is_mining_active = true ↔ s.active_miners.Nonempty) ∧
  (∀ t1, s.last_mining_state_change = some t1 → t1 ≤ t0) ∧
  (s.last_mining_state_change = none ↔ s.is_mining_active = false)

theorem good_mono {s : MiningState} {t0 t1 : ℚ} (hg : GoodMiningState s t0) (h : t0 ≤ t1) :
    GoodMiningState s t1 :=
  ⟨hg.1, fun t2 ht => le_trans (hg.2.1 t2 ht) h, hg.2.2⟩

theorem good_init (t0 : ℚ) : GoodMiningState initMiningState t0 := by
  refine ⟨?_, ?_, ?_⟩ <;> simp [initMiningState]

theorem mining_time_passage (s : MiningState) (t0 τ : ℚ) (hg : GoodMiningState s t0)
    (_h : t0 ≤ τ) :
    get_current_mining_time s τ =
      get_current_mining_time s t0 + (if s.active_miners.Nonempty then τ - t0 else 0) := by
  obtain ⟨hiff, hle, hnone⟩ := hg
  by_cases hb : s.is_mining_active = true
  · unfold get_current_mining_time
    rw [if_pos hb, if_pos hb, if_pos (hiff.mp hb)]
    cases hl : s.last_mining_state_change with
    | none => exact absurd (hnone.mp hl) (by simp [hb])
    | some t1 => ring
  · have hne : ¬ s.active_miners.Nonempty := fun hne => hb (hiff.mpr hne)
    unfold get_current_mining_time
    rw [if_neg hb, if_neg hb, if_neg hne]
    ring

theorem start_miner_active (s : MiningState) (ws : ℕ) (t : ℚ) :
    (start_miner s ws t).active_miners = insert ws s.active_miners := by
  unfold start_miner
  split_ifs with h1 h2
  · exact (Finset.insert_eq_self.mpr h1).symm
  · rfl
  · rfl

theorem stop_miner_active (s : MiningState) (ws : ℕ) (t : ℚ) :
    (stop_miner s ws t).active_miners = s.active_miners.erase ws := by
  unfold stop_miner
  by_cases h1 : ws ∉ s.active_miners
  · rw [if_pos h1]
    exact (Finset.erase_eq_self.mpr h1).symm
  · rw [if_neg h1]
    split_ifs with h2
    · unfold pause_mining_timer
      split_ifs with h3
      · cases s.last_mining_state_change <;> rfl
      · rfl
    · rfl

theorem stepMiner_active (s : MiningState) (t : ℚ) (e : MEvent) :
    (stepMiner s (t, e)).active_miners = applyMEvent s.active_miners e := by
  cases e
  · exact start_miner_active s _ t
  · exact stop_miner_active s _ t

theorem pause_eq_of (s : MiningState) (now t1 : ℚ) (ha : s.is_mining_active = true)
    (hl : s.last_mining_state_change = some t1) :
    pause_mining_timer s now =
      { s with total_mining_time := s.total_mining_time + (now - t1),
               is_mining_active := false, last_mining_state_change := none } := by
  unfold pause_mining_timer
  rw [if_pos ha, hl]

theorem stepMiner_get (s : MiningState) (t : ℚ) (e : MEvent) (hg : GoodMiningState s t) :
    get_current_mining_time (stepMiner s (t, e)) t = get_current_mining_time s t := by
  obtain ⟨hiff, hle, hnone⟩ := hg
  cases e with
  | start ws =>
      show get_current_mining_time (start_miner s ws t) t = _
      unfold start_miner
      split_ifs with h1 h2
      · rfl
      · have hemp : s.active_miners = ∅ := Finset.card_eq_zero.mp h2
        have hb : s.is_mining_active = false := by
          cases hb : s.is_mining_active
          · rfl
          · exact absurd (hiff.mp hb) (by simp [hemp])
        unfold get_current_mining_time
        simp [hb]
      · rfl
  | stop ws =>
      show get_current_mining_time (stop_miner s ws t) t = _
      unfold stop_miner
      by_cases h1 : ws ∉ s.active_miners
      · rw [if_pos h1]
      · rw [if_neg h1]
        split_ifs with h2
        · have hact : s.is_mining_active = true := h2.2
          cases hl : s.last_mining_state_change with
          | none => exact absurd (hnone.mp hl) (by simp [hact])
          | some t1 =>
              rw [pause_eq_of { s with active_miners := s.active_miners.erase ws, last_mining_state_change := some t1 } t t1 hact rfl]
              unfold get_current_mining_time
              rw [if_neg (by simp), if_pos hact, hl]
        · rfl

theorem stepMiner_good (s : MiningState) (t : ℚ) (e : MEvent) (hg : GoodMiningState s t) :
    GoodMiningState (stepMiner s (t, e)) t := by
  obtain ⟨hiff, hle, hnone⟩ := hg
  cases e with
  | start ws =>
      show GoodMiningState (start_miner s ws t) t
      unfold start_miner
      split_ifs with h1 h2
      · exact ⟨hiff, hle, hnone⟩
      · refine ⟨by simp, ?_, by simp⟩
        intro t1 ht1
        exact le_of_eq (Option.some.inj ht1).symm
      · have hne : s.active_miners.Nonempty := by
          rcases Finset.eq_empty_or_nonempty s.active_miners with he | hne
          · exact absurd (by rw [he]; rfl) h2
          · exact hne
        refine ⟨?_, hle, ?_⟩
        · simp only []
          exact ⟨fun _ => Finset.insert_nonempty _ _, fun _ => hiff.mpr hne⟩
        · simpa using hnone
  | stop ws =>
      show GoodMiningState (stop_miner s ws t) t
      unfold stop_miner
      by_cases h1 : ws ∉ s.active_miners
      · rw [if_pos h1]
        exact ⟨hiff, hle, hnone⟩
      · rw [if_neg h1]
        have hsne : s.active_miners.Nonempty := ⟨ws, not_not.mp h1⟩
        split_ifs with h2
        · have hact : s.is_mining_active = true := h2.2
          have hemp : s.active_miners.erase ws = ∅ := Finset.card_eq_zero.mp h2.1
          cases hl : s.last_mining_state_change with
          | none => exact absurd (hnone.mp hl) (by simp [hact])
          | some t1 =>
              rw [pause_eq_of { s with active_miners := s.active_miners.erase ws, last_mining_state_change := some t1 } t t1 hact rfl]
              refine ⟨?_, by simp, by simp⟩
              simp [hemp]
        · have herasene : (s.active_miners.erase ws).Nonempty := by
            rcases Finset.eq_empty_or_nonempty (s.active_miners.erase ws) with he | hne
            · exact absurd ⟨by rw [he]; rfl, hiff.mpr hsne⟩ h2
            · exact hne
          refine ⟨?_, hle, ?_⟩
          · simp only []
            exact ⟨fun _ => herasene, fun _ => hiff.mpr hsne⟩
          · simpa using hnone

theorem runMiner_spec :
    ∀ (evs : List (ℚ × MEvent)) (s : MiningState) (t0 now : ℚ),
      Chrono t0 evs now → GoodMiningState s t0 →
      get_current_mining_time (runMiner s evs) now =
        get_current_mining_time s t0 + specMiningTime t0 s.active_miners evs now
  | [], s, t0, now, hc, hg => by
      have hc' : t0 ≤ now := hc
      show get_current_mining_time s now = _
      rw [mining_time_passage s t0 now hg hc']
      rfl
  | (t, e) :: rest, s, t0, now, hc, hg => by
      obtain ⟨h0, hcr⟩ : t0 ≤ t ∧ Chrono t rest now := hc
      have hg' : GoodMiningState s t := good_mono hg h0
      have hrec := runMiner_spec rest (stepMiner s (t, e)) t now hcr (stepMiner_good s t e hg')
      have hfold : runMiner s ((t, e) :: rest) = runMiner (stepMiner s (t, e)) rest := rfl
      rw [hfold, hrec, stepMiner_get s t e hg', stepMiner_active,
        mining_time_passage s t0 t hg h0]
      show _ = _ + ((if s.active_miners.Nonempty then t - t0 else 0) +
        specMiningTime t (applyMEvent s.active_miners e) rest now)
      ring

theorem good_runMiner :
    ∀ (evs : List (ℚ × MEvent)) (s : MiningState) (t0 now : ℚ),
      Chrono t0 evs now → GoodMiningState s t0 → GoodMiningState (runMiner s evs) now
  | [], s, t0, now, hc, hg => good_mono hg hc
  | (t, e) :: rest, s, t0, now, hc, hg => by
      obtain ⟨h0, hcr⟩ : t0 ≤ t ∧ Chrono t rest now := hc
      exact good_runMiner rest (stepMiner s (t, e)) t now hcr
        (stepMiner_good s t e (good_mono hg h0))

theorem specMiningTime_nonneg :
    ∀ (evs : List (ℚ × MEvent)) (t0 now : ℚ) (a : Finset ℕ),
      Chrono t0 evs now → 0 ≤ specMiningTime t0 a evs now
  | [], t0, now, a, hc => by
      have hc' : t0 ≤ now := hc
      show (0 : ℚ) ≤ if a.Nonempty then now - t0 else 0
      split_ifs <;> linarith
  | (t, e) :: rest, t0, now, a, hc => by
      obtain ⟨h0, hcr⟩ : t0 ≤ t ∧ Chrono t rest now := hc
      have h1 := specMiningTime_nonneg rest t now (applyMEvent a e) hcr
      show (0 : ℚ) ≤ (if a.Nonempty then t - t0 else 0) +
        specMiningTime t (applyMEvent a e) rest now
      split_ifs <;> linarith

theorem specMiningTime_no_start :
    ∀ (evs : List (ℚ × MEvent)) (t0 now : ℚ),
      (∀ p ∈ evs, ∀ ws, p.2 ≠ MEvent.start ws) →
      specMiningTime t0 ∅ evs now = 0
  | [], t0, now, _ => by
      show (if (∅ : Finset ℕ).Nonempty then now - t0 else 0) = 0
      simp
  | (t, e) :: rest, t0, now, h => by
      have he : applyMEvent ∅ e = ∅ := by
        cases e with
        | start ws => exact absurd rfl (h (t, .start ws) (by simp) ws)
        | stop ws => simp [applyMEvent]
      show (if (∅ : Finset ℕ).Nonempty then t - t0 else 0) +
        specMiningTime t (applyMEvent ∅ e) rest now = 0
      rw [he, specMiningTime_no_start rest t now (fun p hp => h p (by simp [hp]))]
      simp

theorem runMiner_append (s : MiningState) (evs more : List (ℚ × MEvent)) :
    runMiner s (evs ++ more) = runMiner (runMiner s evs) more := by
  unfold runMiner
  exact List.foldl_append _ _ _ _

/-- C9: Mining-timer semantics.  (1) Against any chronological event
history the accumulator read by `get_current_mining_time` equals the summed
lengths of the intervals during which the active-miner set was non-empty;
(2) it is non-decreasing under the passage of time and under any further
`mining_start` / `mining_stop` / disconnect events; (3) while the
active-miner set is empty it does not increase; (4) a query during an
active interval returns `total_mining_time + (now − last_mining_state_change)`;
(5) while no miner has ever started it stays 0. -/
theorem C9_mining_timer :
    (∀ (evs : List (ℚ × MEvent)) (t0 now : ℚ), Chrono t0 evs now →
      get_current_mining_time (runMiner initMiningState evs) now =
        specMiningTime t0 ∅ evs now) ∧
    (∀ (evs more : List (ℚ × MEvent)) (t0 now now' : ℚ),
      Chrono t0 evs now → Chrono now more now' →
      get_current_mining_time (runMiner initMiningState evs) now ≤
        get_current_mining_time (runMiner initMiningState (evs ++ more)) now') ∧
    (∀ (evs : List (ℚ × MEvent)) (t0 now now' : ℚ),
      Chrono t0 evs now → now ≤ now' →
      (runMiner initMiningState evs).active_miners = ∅ →
      get_current_mining_time (runMiner initMiningState evs) now' =
        get_current_mining_time (runMiner initMiningState evs) now) ∧
    (∀ (s : MiningState) (now t1 : ℚ), s.is_mining_active = true →
      s.last_mining_state_change = some t1 →
      get_current_mining_time s now = s.total_mining_time + (now - t1)) ∧
    (∀ (evs : List (ℚ × MEvent)) (t0 now : ℚ), Chrono t0 evs now →
      (∀ p ∈ evs, ∀ ws, p.2 ≠ MEvent.start ws) →
      get_current_mining_time (runMiner initMiningState evs) now = 0) := by
  have hspec : ∀ (evs : List (ℚ × MEvent)) (t0 now : ℚ), Chrono t0 evs now →
      get_current_mining_time (runMiner initMiningState evs) now =
        specMiningTime t0 ∅ evs now := by
    intro evs t0 now hc
    rw [runMiner_spec evs initMiningState t0 now hc (good_init t0)]
    show get_current_mining_time initMiningState t0 +
      specMiningTime t0 (∅ : Finset ℕ) evs now = _
    have h0 : get_current_mining_time initMiningState t0 = 0 := rfl
    rw [h0, zero_add]
  refine ⟨hspec, ?_, ?_, ?_, ?_⟩
  · intro evs more t0 now now' hc hmore
    have hgood := good_runMiner evs initMiningState t0 now hc (good_init t0)
    rw [runMiner_append, runMiner_spec more (runMiner initMiningState evs) now now' hmore hgood]
    have hnn := specMiningTime_nonneg more now now' (runMiner initMiningState evs).active_miners hmore
    linarith
  · intro evs t0 now now' hc hle hempty
    have hgood := good_runMiner evs initMiningState t0 now hc (good_init t0)
    rw [mining_time_passage _ now now' hgood hle, hempty]
    simp
  · intro s now t1 hact hl
    unfold get_current_mining_time
    rw [if_pos hact, hl]
  · intro evs t0 now hc hnostart
    rw [hspec evs t0 now hc, specMiningTime_no_start evs t0 now hnostart]

/-! ## Session-token validation (`src/core/state.py`,
`validate_session_token`) -/

/-- One record of `SystemState.session_tokens` (the WebSocket handle is
irrelevant to validation and omitted; an absent `"revoked"` key is
`revoked = false`). -/
structure TokenData where
  ip : String
  created_at : ℚ
  disconnected_at : Option ℚ
  is_connected : Bool
  revoked : Bool
deriving DecidableEq

/-- `SystemState.token_expiry_seconds`. -/
def token_expiry_seconds : ℚ := 300

/-- `SystemState.validate_session_token`: reject unknown tokens, revoked
tokens, IP mismatches, and tokens disconnected for more than
`token_expiry_seconds`. -/
def validate_session_token (session_tokens : String → Option TokenData) (now : ℚ)
    (token : String) (request_ip : String) : Bool :=
  match session_tokens token with
  | none => false
  | some d =>
      if d.revoked then false
      else if d.ip ≠ request_ip then false
      else if d.is_connected = false then
        match d.disconnected_at with
        | some t0 => if now - t0 > token_expiry_seconds then false else true
        | none => true
      else true

/-- C7: `validate_session_token` returns true exactly for a stored,
unrevoked token whose bound IP equals the request IP and which is either
connected or disconnected for at most 300 seconds.  The characterisation
needs the store invariant that a disconnected record carries its disconnect
time (every store mutation — generate, mark-disconnected, reconnect,
revoke — maintains it); the IP-mismatch and revocation rejections hold for
every record unconditionally. -/
theorem C7_session_validation (session_tokens : String → Option TokenData)
    (now : ℚ) (token request_ip : String)
    (hwf : ∀ d, session_tokens token = some d → d.is_connected = false →
      d.disconnected_at ≠ none) :
    (validate_session_token session_tokens now token request_ip = true ↔
      ∃ d, session_tokens token = some d ∧ d.revoked = false ∧ d.ip = request_ip ∧
        (d.is_connected = true ∨
          ∃ t0, d.disconnected_at = some t0 ∧ now - t0 ≤ 300)) ∧
    (∀ d, session_tokens token = some d → d.ip ≠ request_ip →
      validate_session_token session_tokens now token request_ip = false) ∧
    (∀ d, session_tokens token = some d → d.revoked = true →
      validate_session_token session_tokens now token request_ip = false) := by
  unfold validate_session_token
  cases hl : session_tokens token with
  | none =>
      refine ⟨?_, ?_, ?_⟩
      · simp
      · intro d hd; simp at hd
      · intro d hd; simp at hd
  | some d =>
      have hwf' := hwf d hl
      dsimp only
      refine ⟨?_, ?_, ?_⟩
      · by_cases hrev : d.revoked = true
        · rw [if_pos hrev]
          apply iff_of_false (by simp)
          rintro ⟨d', hd', hrev', -⟩
          obtain rfl : d = d' := Option.some.inj hd'
          rw [hrev'] at hrev
          cases hrev
        · rw [if_neg hrev]
          by_cases hip : d.ip ≠ request_ip
          · rw [if_pos hip]
            apply iff_of_false (by simp)
            rintro ⟨d', hd', -, hip', -⟩
            obtain rfl : d = d' := Option.some.inj hd'
            exact hip hip'
          · rw [if_neg hip]
            push_neg at hip
            by_cases hconn : d.is_connected = false
            · rw [if_pos hconn]
              cases hdis : d.disconnected_at with
              | none => exact absurd hdis (hwf' hconn)
              | some t0 =>
                  dsimp only
                  by_cases hexp : now - t0 > token_expiry_seconds
                  · rw [if_pos hexp]
                    apply iff_of_false (by simp)
                    rintro ⟨d', hd', -, -, hok⟩
                    obtain rfl : d = d' := Option.some.inj hd'
                    rcases hok with hok | ⟨t1, ht1, hle⟩
                    · rw [hok] at hconn; cases hconn
                    · rw [hdis] at ht1
                      rw [← Option.some.inj ht1] at hle
                      unfold token_expiry_seconds at hexp
                      linarith
                  · rw [if_neg hexp]
                    apply iff_of_true rfl
                    refine ⟨d, rfl, by simpa using hrev, hip, ?_⟩
                    exact Or.inr ⟨t0, hdis, by unfold token_expiry_seconds at hexp; linarith⟩
            · rw [if_neg hconn]
              apply iff_of_true rfl
              refine ⟨d, rfl, by simpa using hrev, hip, ?_⟩
              exact Or.inl (by simpa using hconn)
      · intro d' hd' hipne
        obtain rfl : d = d' := Option.some.inj hd'
        by_cases hrev : d.revoked = true
        · rw [if_pos hrev]
        · rw [if_neg hrev, if_pos hipne]
      · intro d' hd' hrev
        obtain rfl : d = d' := Option.some.inj hd'
        rw [if_pos hrev]

/-- The single session record of the C7 witness: bound to `203.0.113.45`,
currently connected, not revoked. -/
def c7Token : TokenData :=
  { ip := "203.0.113.45", created_at := 0, disconnected_at := none,
    is_connected := true, revoked := false }

/-- The concrete session store of the C7 witness. -/
def c7Store : String → Option TokenData := fun t =>
  if t = "tok1" then some c7Token else none

/-- C7 witness: the theorem applied at the concrete store; a request from a
different IP fails validation. -/
theorem C7_session_validation_witness :
    validate_session_token c7Store 100 "tok1" "198.51.100.7" = false := by
  have h := C7_session_validation c7Store 100 "tok1" "198.51.100.7"
    (by intro d hd hconn
        have hd' : c7Token = d := by simpa [c7Store] using hd
        obtain rfl := hd'
        exact absurd hconn (by decide))
  exact h.2.1 c7Token (by simp [c7Store]) (by decide)

/-! ## Hashrate samples (`src/core/state.py` and the WebSocket handler of
`src/api/routes.py`)

`client_hashrates` / `overspeed_hashrates` are dicts keyed by WebSocket;
here association lists keyed by `ℕ` connection ids. -/

/-- One hashrate sample (`{"rate", "timestamp", "ip", "connected_at"}`). -/
structure HashrateSample where
  rate : ℚ
  timestamp : ℚ
  ip : String
  connected_at : ℚ
deriving DecidableEq

/-- Dict lookup. -/
def dictGet (l : List (ℕ × HashrateSample)) (k : ℕ) : Option HashrateSample :=
  (l.find? (fun p => p.1 == k)).map (fun p => p.2)

/-- Dict assignment (`d[k] = v`). -/
def dictSet (l : List (ℕ × HashrateSample)) (k : ℕ) (v : HashrateSample) :
    List (ℕ × HashrateSample) :=
  (k, v) :: l.filter (fun p => p.1 != k)

/-- Dict removal (`d.pop(k, None)`). -/
def dictPop (l : List (ℕ × HashrateSample)) (k : ℕ) : List (ℕ × HashrateSample) :=
  l.filter (fun p => p.1 != k)

/-- The two hashrate maps of `SystemState`. -/
structure HashrateState where
  client_hashrates : List (ℕ × HashrateSample)
  overspeed_hashrates : List (ℕ × HashrateSample)
deriving DecidableEq

/-- `SystemState.update_client_hashrate`: store the sample in the normal
map, keeping `connected_at` from an existing entry in either map, and drop
any overspeed entry for the connection. -/
def update_client_hashrate (st : HashrateState) (ws : ℕ) (rate : ℚ)
    (client_ip : String) (now : ℚ) : HashrateState :=
  let existing := (dictGet st.client_hashrates ws).orElse
    (fun _ => dictGet st.overspeed_hashrates ws)
  let connected_at := match existing with
    | some s => s.connected_at
    | none => now
  let sample : HashrateSample :=
    { rate := rate, timestamp := now, ip := client_ip, connected_at := connected_at }
  { client_hashrates := dictSet st.client_hashrates ws sample,
    overspeed_hashrates := dictPop st.overspeed_hashrates ws }

/-- `SystemState.update_overspeed_hashrate`: store the sample in the
overspeed map (the normal entry, if any, is left in place).  No code path
of the repository ever calls this method. -/
def update_overspeed_hashrate (st : HashrateState) (ws : ℕ) (rate : ℚ)
    (client_ip : String) (now : ℚ) : HashrateState :=
  let existing := (dictGet st.client_hashrates ws).orElse
    (fun _ => dictGet st.overspeed_hashrates ws)
  let connected_at := match existing with
    | some s => s.connected_at
    | none => now
  let sample : HashrateSample :=
    { rate := rate, timestamp := now, ip := client_ip, connected_at := connected_at }
  { st with overspeed_hashrates := dictSet st.overspeed_hashrates ws sample }

/-- The `"rate"` field of a `{type: hashrate}` message:
`payload.get("rate", 0.0)` yields `0.0` when the key is missing; a present
value is numeric or not. -/
inductive RateField
  | missing
  | nonNumeric
  | num (rate : ℚ)

/-- The `hashrate` branch of `websocket_endpoint` (`src/api/routes.py`
468–477): accept the sample iff the rate is numeric and `0 ≤ rate < 1000`,
and store every accepted sample with `update_client_hashrate`. -/
def handle_hashrate_message (st : HashrateState) (ws : ℕ) (real_ip : String)
    (field : RateField) (now : ℚ) : HashrateState :=
  match field with
  | .missing => update_client_hashrate st ws 0 real_ip now
  | .nonNumeric => st
  | .num rate =>
      if 0 ≤ rate ∧ rate < 1000 then update_client_hashrate st ws rate real_ip now
      else st

/-- `SystemState.hashrate_stale_timeout`. -/
def hashrate_stale_timeout : ℚ := 10

/-- The total of `SystemState.get_network_hashrate`: the sum of the rates of
the non-stale entries of `client_hashrates` (the broadcast network-hashrate
total; `overspeed_hashrates` is never read here). -/
def network_total_hashrate (st : HashrateState) (now : ℚ) : ℚ :=
  ((st.client_hashrates.filter
      (fun p => now - p.2.timestamp ≤ hashrate_stale_timeout)).map
    (fun p => p.2.rate)).sum

/-- C8 counterexample: the claim routes an accepted sample whose rate
exceeds `max_nonce_speed` into the overspeed map and excludes it from the
broadcast total.  The handler never consults `max_nonce_speed` (and
`update_overspeed_hashrate` has no caller): with `max_nonce_speed = 100`, a
report of 500 H/s lands in the normal map, leaves the overspeed map empty
and contributes its full 500 to the broadcast total. -/
theorem C8_overspeed_counterexample :
    (handle_hashrate_message ⟨[], []⟩ 1 "203.0.113.45" (RateField.num 500) 0).overspeed_hashrates
      = [] ∧
    network_total_hashrate
      (handle_hashrate_message ⟨[], []⟩ 1 "203.0.113.45" (RateField.num 500) 0) 0 = 500 := by
  constructor
  · rfl
  · norm_num [handle_hashrate_message, update_client_hashrate, network_total_hashrate,
      dictGet, dictSet, dictPop, hashrate_stale_timeout]

/-- C8 (amended): a hashrate report is accepted exactly when the rate is
numeric and `0 ≤ rate < 1000` (a missing rate defaults to the accepted
`0.0`; a non-numeric one is dropped); every accepted sample — whatever its
magnitude — is stored in the normal per-client map by
`update_client_hashrate` (which removes any overspeed entry and never adds
one), and a freshly accepted sample is included in the broadcast
network-hashrate total. -/
theorem C8_hashrate_accept :
    (∀ (st : HashrateState) (ws : ℕ) (ip : String) (r now : ℚ),
      ¬ (0 ≤ r ∧ r < 1000) →
      handle_hashrate_message st ws ip (RateField.num r) now = st) ∧
    (∀ (st : HashrateState) (ws : ℕ) (ip : String) (now : ℚ),
      handle_hashrate_message st ws ip RateField.nonNumeric now = st) ∧
    (∀ (st : HashrateState) (ws : ℕ) (ip : String) (now : ℚ),
      handle_hashrate_message st ws ip RateField.missing now =
        update_client_hashrate st ws 0 ip now) ∧
    (∀ (st : HashrateState) (ws : ℕ) (ip : String) (r now : ℚ),
      0 ≤ r → r < 1000 →
      handle_hashrate_message st ws ip (RateField.num r) now =
        update_client_hashrate st ws r ip now) ∧
    (∀ (st : HashrateState) (ws : ℕ) (ip : String) (r now : ℚ),
      ∃ ca, (update_client_hashrate st ws r ip now).client_hashrates =
          dictSet st.client_hashrates ws
            { rate := r, timestamp := now, ip := ip, connected_at := ca } ∧
        (update_client_hashrate st ws r ip now).overspeed_hashrates =
          dictPop st.overspeed_hashrates ws) ∧
    (∀ (st : HashrateState) (ws : ℕ) (ip : String) (r now : ℚ),
      st.client_hashrates = [] →
      network_total_hashrate (update_client_hashrate st ws r ip now) now = r) := by
  refine ⟨?_, ?_, ?_, ?_, ?_, ?_⟩
  · intro st ws ip r now hr
    show (if 0 ≤ r ∧ r < 1000 then _ else st) = st
    rw [if_neg hr]
  · intro st ws ip now
    rfl
  · intro st ws ip now
    rfl
  · intro st ws ip r now h0 h1
    show (if 0 ≤ r ∧ r < 1000 then _ else st) = _
    rw [if_pos ⟨h0, h1⟩]
  · intro st ws ip r now
    exact ⟨_, rfl, rfl⟩
  · intro st ws ip r now hemp
    simp [network_total_hashrate, update_client_hashrate, dictSet, hemp, hashrate_stale_timeout]

/-! ## The verify pipeline (`src/api/routes.py`, `verify_solution`)

The endpoint's state reads and mutations, over exact rationals.  The
difficulty controller's `math.log2` enters as the function parameter
`log2q`, so every pipeline theorem holds for each value the floating-point
library could return.  The fresh seed `secrets.token_hex(16)` drawn by
`reset_puzzle` is the parameter `freshSeed`.  `asyncio.Lock` serialises the
critical sections, so a set of concurrent submissions executes as a
sequence of lock sections in the order the lock is granted — `runRace`
below. -/

/-- The `Submission` request model (`src/models/schemas.py`). -/
structure Submission where
  visitorId : String
  nonce : ℕ
  submittedSeed : String
  traceData : String
  hash : String
deriving DecidableEq

/-- The `SystemState` fields the verify pipeline reads or writes. -/
structure QState where
  current_seed : String
  banned_ips : List String
  difficulty : ℤ
  min_difficulty : ℤ
  max_difficulty : ℤ
  difficulty_float : ℚ
  target_time : ℤ
  ema_alpha : ℚ
  ema_solve_time : Option ℚ
  last_solve_time : Option ℚ
  solve_history : List ℚ
  solve_time_chart_history : List ℚ
  mining : MiningState
  puzzle_start_time : ℚ
  max_nonce_speed : ℚ
  hmac_secret : List ℕ
  argon2_time_cost : ℕ
  argon2_memory_cost : ℕ
  argon2_parallelism : ℕ
deriving DecidableEq

/-- `SystemState.is_banned`. -/
def is_banned (st : QState) (ip : String) : Bool := st.banned_ips.contains ip

/-- `check_nonce_speed` of `src/api/routes.py` (the error-message text is
presentation only and omitted): pass when the threshold is disabled
(`max_nonce_speed ≤ 0`) or no speed can be computed (`solve_time ≤ 0`);
otherwise reject iff `nonce / solve_time` exceeds the threshold. -/
def check_nonce_speed (max_nonce_speed : ℚ) (nonce : ℕ) (solve_time : ℚ) : Bool :=
  if max_nonce_speed ≤ 0 then true
  else if solve_time ≤ 0 then true
  else if (nonce : ℚ) / solve_time > max_nonce_speed then false
  else true

/-- Python `round()` over exact rationals: nearest integer, ties to even. -/
def pyRoundQ (x : ℚ) : ℤ :=
  if Int.fract x = 1 / 2 then (if 2 ∣ ⌊x⌋ then ⌊x⌋ else ⌊x⌋ + 1) else round x

/-- `SystemState.adjust_difficulty` as invoked from the verify pipeline,
with `math.log2` as the parameter `log2q` (see `adjust_difficulty` over ℝ
for the controller itself). -/
def adjust_difficulty_q (log2q : ℚ → ℚ) (st : QState) (solve_time : ℚ) : QState :=
  let ema := match st.ema_solve_time with
    | none => solve_time
    | some e => st.ema_alpha * solve_time + (1 - st.ema_alpha) * e
  let step := max (-4) (min (log2q ((st.target_time : ℚ) / max ema (1 / 10))) 4)
  let new_float := max (st.min_difficulty : ℚ)
    (min (st.difficulty_float + step) (st.max_difficulty : ℚ))
  { st with ema_solve_time := some ema,
            difficulty_float := new_float,
            difficulty := pyRoundQ new_float,
            last_solve_time := some solve_time }

/-- `SystemState.record_solve_time`: append to the `maxlen=5` deque and the
50-point chart history. -/
def record_solve_time (st : QState) (solve_time : ℚ) : QState :=
  let h := st.solve_history ++ [solve_time]
  let h5 := h.drop (h.length - 5)
  let c := st.solve_time_chart_history ++ [solve_time]
  let c50 := if c.length > 50 then c.drop 1 else c
  { st with solve_history := h5, solve_time_chart_history := c50 }

/-- `SystemState.reset_puzzle`: fresh seed, fresh `puzzle_start_time`,
cleared mining accumulators. -/
def reset_puzzle (st : QState) (freshSeed : String) (now : ℚ) : QState :=
  { st with current_seed := freshSeed, puzzle_start_time := now,
            mining := initMiningState }

/-- The outcome of `POST /api/verify` (HTTP mapping: `accessDenied` and
`identityMismatch` are 403, `puzzleStale` is 409, `speedTooHigh` and
`badSolution` are 400, `ok` is the 200 invite-code response). -/
inductive VerifyResult
  | ok (invite_code : String)
  | accessDenied
  | identityMismatch
  | puzzleStale
  | speedTooHigh
  | badSolution (msg : Option String)
deriving DecidableEq

/-- The critical section of `verify_solution` (`src/api/routes.py`
222–302), from the double-check under the lock to the reset: double-check
the seed; compute `solve_time`; speed check; Argon2 verification; on
success derive the invite code, adjust difficulty, record the solve time
and reset the puzzle.  (The broadcast, timeout-watcher restart and audit
append mutate none of these fields; the broadcast's lock discipline is
claim C2's trace model.) -/
def verify_lock_section (log2q : ℚ → ℚ) (argon2 : Argon2Fn)
    (hmacSha256 : List ℕ → List ℕ → List ℕ) (freshSeed : String)
    (st : QState) (sub : Submission) (now : ℚ) : QState × VerifyResult :=
  if st.current_seed ≠ sub.submittedSeed then (st, .puzzleStale)
  else
    let solve_time := get_current_mining_time st.mining now
    if check_nonce_speed st.max_nonce_speed sub.nonce solve_time = false then
      (st, .speedTooHigh)
    else
      match verify_argon2_solution argon2 sub.nonce sub.submittedSeed sub.visitorId
        sub.traceData sub.hash st.difficulty st.argon2_time_cost
        st.argon2_memory_cost st.argon2_parallelism with
      | (false, msg) => (st, .badSolution msg)
      | (true, _) =>
          let invite_code := generate_invite_code hmacSha256 st.hmac_secret
            sub.visitorId sub.nonce sub.submittedSeed
          let st1 := adjust_difficulty_q log2q st solve_time
          let st2 := record_solve_time st1 solve_time
          let st3 := reset_puzzle st2 freshSeed now
          (st3, .ok invite_code)

/-- `verify_solution` of `src/api/routes.py`: ban check, trace-data
anti-spoof check (`"ip=<real_ip>"` must appear in `traceData`), fast-fail
seed check outside the lock, then the critical section. -/
def verify_solution_q (log2q : ℚ → ℚ) (argon2 : Argon2Fn)
    (hmacSha256 : List ℕ → List ℕ → List ℕ) (freshSeed : String)
    (st : QState) (sub : Submission) (real_ip : String) (now : ℚ) :
    QState × VerifyResult :=
  if is_banned st real_ip then (st, .accessDenied)
  else if ¬ (("ip=" ++ real_ip).toList <:+: sub.traceData.toList) then
    (st, .identityMismatch)
  else if st.current_seed ≠ sub.submittedSeed then (st, .puzzleStale)
  else verify_lock_section log2q argon2 hmacSha256 freshSeed st sub now

/-- A set of concurrent submissions as the mutex serialises them: each list
entry is a submission with the instant its critical section runs; the
pre-lock fast-fail phase has already passed for every entry (all carry the
current seed and an unbanned, trace-consistent origin). -/
def runRace (log2q : ℚ → ℚ) (argon2 : Argon2Fn)
    (hmacSha256 : List ℕ → List ℕ → List ℕ) (freshSeed : String) :
    QState → List (Submission × ℚ) → QState × List VerifyResult
  | st, [] => (st, [])
  | st, (sub, t) :: rest =>
      let res := verify_lock_section log2q argon2 hmacSha256 freshSeed st sub t
      let tail := runRace log2q argon2 hmacSha256 freshSeed res.1 rest
      (tail.1, res.2 :: tail.2)

theorem lock_section_stale (log2q : ℚ → ℚ) (argon2 : Argon2Fn)
    (hm : List ℕ → List ℕ → List ℕ) (freshSeed : String)
    (st : QState) (sub : Submission) (t : ℚ)
    (h : st.current_seed ≠ sub.submittedSeed) :
    verify_lock_section log2q argon2 hm freshSeed st sub t = (st, .puzzleStale) := by
  unfold verify_lock_section
  rw [if_pos h]

theorem runRace_stale (log2q : ℚ → ℚ) (argon2 : Argon2Fn)
    (hm : List ℕ → List ℕ → List ℕ) (freshSeed : String) :
    ∀ (items : List (Submission × ℚ)) (st : QState),
      (∀ p ∈ items, st.current_seed ≠ (p : Submission × ℚ).1.submittedSeed) →
      runRace log2q argon2 hm freshSeed st items =
        (st, items.map (fun _ => VerifyResult.puzzleStale))
  | [], st, _ => rfl
  | (sub, t) :: rest, st, h => by
      have h1 : st.current_seed ≠ sub.submittedSeed := h (sub, t) (by simp)
      show (let res := verify_lock_section log2q argon2 hm freshSeed st sub t
            let tail := runRace log2q argon2 hm freshSeed res.1 rest
            (tail.1, res.2 :: tail.2)) = _
      rw [lock_section_stale log2q argon2 hm freshSeed st sub t h1]
      have htail := runRace_stale log2q argon2 hm freshSeed rest st
        (fun p hp => h p (by simp [hp]))
      simp only [htail, List.map_cons]

/-- C1: Single winner.  For any serialisation order of concurrent
submissions that all carry the current seed and would all pass the speed
and Argon2 checks, the first critical section wins — its double-check sees
the unchanged seed, it returns the invite code and replaces the seed via
`reset_puzzle` before the lock is released — and every later critical
section fails its double-check with `PuzzleStale` (409), leaving state
untouched. -/
theorem C1_single_winner (log2q : ℚ → ℚ) (argon2 : Argon2Fn)
    (hm : List ℕ → List ℕ → List ℕ) (freshSeed : String) (st0 : QState)
    (first : Submission × ℚ) (rest : List (Submission × ℚ))
    (hseed : ∀ p ∈ first :: rest, (p : Submission × ℚ).1.submittedSeed = st0.current_seed)
    (hvalid : ∀ p ∈ first :: rest,
      (verify_argon2_solution argon2 (p : Submission × ℚ).1.nonce p.1.submittedSeed
        p.1.visitorId p.1.traceData p.1.hash st0.difficulty st0.argon2_time_cost
        st0.argon2_memory_cost st0.argon2_parallelism).1 = true)
    (hspeed : ∀ p ∈ first :: rest,
      check_nonce_speed st0.max_nonce_speed (p : Submission × ℚ).1.nonce
        (get_current_mining_time st0.mining p.2) = true)
    (hfresh : freshSeed ≠ st0.current_seed) :
    (runRace log2q argon2 hm freshSeed st0 (first :: rest)).2 =
      VerifyResult.ok (generate_invite_code hm st0.hmac_secret first.1.visitorId
        first.1.nonce first.1.submittedSeed) ::
        rest.map (fun _ => VerifyResult.puzzleStale) ∧
    (runRace log2q argon2 hm freshSeed st0 (first :: rest)).1.current_seed = freshSeed := by
  obtain ⟨sub1, t1⟩ := first
  have hseed1 : sub1.submittedSeed = st0.current_seed := hseed (sub1, t1) (by simp)
  have hvalid1 := hvalid (sub1, t1) (by simp)
  have hspeed1 := hspeed (sub1, t1) (by simp)
  have hwin : verify_lock_section log2q argon2 hm freshSeed st0 sub1 t1 =
      (reset_puzzle
        (record_solve_time
          (adjust_difficulty_q log2q st0 (get_current_mining_time st0.mining t1))
          (get_current_mining_time st0.mining t1))
        freshSeed t1,
       VerifyResult.ok (generate_invite_code hm st0.hmac_secret sub1.visitorId
        sub1.nonce sub1.submittedSeed)) := by
    unfold verify_lock_section
    rw [if_neg (fun hne => hne hseed1.symm)]
    rw [if_neg (by rw [hspeed1]; simp)]
    rcases hv : verify_argon2_solution argon2 sub1.nonce sub1.submittedSeed sub1.visitorId
      sub1.traceData sub1.hash st0.difficulty st0.argon2_time_cost
      st0.argon2_memory_cost st0.argon2_parallelism with ⟨b, msg⟩
    have hb : b = true := by rw [hv] at hvalid1; exact hvalid1
    subst hb
    rfl
  have hcur : (reset_puzzle
      (record_solve_time
        (adjust_difficulty_q log2q st0 (get_current_mining_time st0.mining t1))
        (get_current_mining_time st0.mining t1))
      freshSeed t1).current_seed = freshSeed := rfl
  have hstale := runRace_stale log2q argon2 hm freshSeed rest
    (reset_puzzle
      (record_solve_time
        (adjust_difficulty_q log2q st0 (get_current_mining_time st0.mining t1))
        (get_current_mining_time st0.mining t1))
      freshSeed t1)
    (by intro p hp
        rw [hcur]
        intro he
        exact hfresh (he.trans (hseed p (by simp [hp]))))
  show (let res := verify_lock_section log2q argon2 hm freshSeed st0 sub1 t1
        let tail := runRace log2q argon2 hm freshSeed res.1 rest
        ((tail.1, res.2 :: tail.2) : QState × List VerifyResult)).2 = _ ∧
      (let res := verify_lock_section log2q argon2 hm freshSeed st0 sub1 t1
        let tail := runRace log2q argon2 hm freshSeed res.1 rest
        ((tail.1, res.2 :: tail.2) : QState × List VerifyResult)).1.current_seed = _
  rw [hwin]
  simp only [hstale]
  exact ⟨trivial, hcur⟩

/-- The Argon2 oracle of the C1 witness: every call returns 32 zero bytes. -/
def c1Argon2 : Argon2Fn := fun _ _ _ _ _ => List.replicate 32 0

/-- The HMAC oracle of the C1 witness. -/
def c1Hmac : List ℕ → List ℕ → List ℕ := fun _ _ => List.replicate 32 0

/-- The server state of the C1 witness: seed `"aa"`, difficulty 0, speed
check disabled. -/
def c1State : QState :=
  { current_seed := "aa", banned_ips := [], difficulty := 0, min_difficulty := 4,
    max_difficulty := 24, difficulty_float := 12, target_time := 75, ema_alpha := 1 / 3,
    ema_solve_time := none, last_solve_time := none, solve_history := [],
    solve_time_chart_history := [], mining := initMiningState, puzzle_start_time := 0,
    max_nonce_speed := 0, hmac_secret := [], argon2_time_cost := 3,
    argon2_memory_cost := 65536, argon2_parallelism := 1 }

/-- First racer of the C1 witness (its hash is the hex of 32 zero bytes). -/
def c1SubA : Submission × ℚ :=
  ({ visitorId := "v1", nonce := 7, submittedSeed := "aa", traceData := "ip=1.2.3.4",
     hash := "0000000000000000000000000000000000000000000000000000000000000000" }, 5)

/-- Second racer of the C1 witness. -/
def c1SubB : Submission × ℚ :=
  ({ visitorId := "v2", nonce := 8, submittedSeed := "aa", traceData := "ip=5.6.7.8",
     hash := "0000000000000000000000000000000000000000000000000000000000000000" }, 6)

set_option maxRecDepth 4000 in
/-- C1 witness: two valid concurrent submissions against seed `"aa"`; the
first gets the invite code, the second gets `PuzzleStale`, and the seed has
been replaced. -/
theorem C1_single_winner_witness :
    (runRace (fun _ => 0) c1Argon2 c1Hmac "bb" c1State (c1SubA :: [c1SubB])).2 =
      VerifyResult.ok (generate_invite_code c1Hmac c1State.hmac_secret c1SubA.1.visitorId
        c1SubA.1.nonce c1SubA.1.submittedSeed) ::
        [c1SubB].map (fun _ => VerifyResult.puzzleStale) ∧
    (runRace (fun _ => 0) c1Argon2 c1Hmac "bb" c1State (c1SubA :: [c1SubB])).1.current_seed
      = "bb" :=
  C1_single_winner (fun _ => 0) c1Argon2 c1Hmac "bb" c1State c1SubA [c1SubB]
    (by decide) (by decide) (by decide) (by decide)

theorem lock_section_fail_frame (log2q : ℚ → ℚ) (argon2 : Argon2Fn)
    (hm : List ℕ → List ℕ → List ℕ) (freshSeed : String) (st : QState)
    (sub : Submission) (now : ℚ)
    (h : ∀ c, (verify_lock_section log2q argon2 hm freshSeed st sub now).2 ≠
      VerifyResult.ok c) :
    (verify_lock_section log2q argon2 hm freshSeed st sub now).1 = st := by
  unfold verify_lock_section at *
  by_cases h1 : st.current_seed ≠ sub.submittedSeed
  · rw [if_pos h1]
  · rw [if_neg h1] at h ⊢
    dsimp only at h ⊢
    by_cases h2 : check_nonce_speed st.max_nonce_speed sub.nonce
        (get_current_mining_time st.mining now) = false
    · rw [if_pos h2]
    · rw [if_neg h2] at h ⊢
      rcases hv : verify_argon2_solution argon2 sub.nonce sub.submittedSeed sub.visitorId
        sub.traceData sub.hash st.difficulty st.argon2_time_cost
        st.argon2_memory_cost st.argon2_parallelism with ⟨b, msg⟩
      rw [hv] at h
      cases b
      · rfl
      · exact absurd rfl (h _)

theorem verify_fail_frame (log2q : ℚ → ℚ) (argon2 : Argon2Fn)
    (hm : List ℕ → List ℕ → List ℕ) (freshSeed : String) (st : QState)
    (sub : Submission) (real_ip : String) (now : ℚ)
    (h : ∀ c, (verify_solution_q log2q argon2 hm freshSeed st sub real_ip now).2 ≠
      VerifyResult.ok c) :
    (verify_solution_q log2q argon2 hm freshSeed st sub real_ip now).1 = st := by
  unfold verify_solution_q at *
  by_cases h1 : is_banned st real_ip = true
  · rw [if_pos h1]
  · rw [if_neg h1] at h ⊢
    by_cases h2 : ¬ (("ip=" ++ real_ip).toList <:+: sub.traceData.toList)
    · rw [if_pos h2]
    · rw [if_neg h2] at h ⊢
      by_cases h3 : st.current_seed ≠ sub.submittedSeed
      · rw [if_pos h3]
      · rw [if_neg h3] at h ⊢
        exact lock_section_fail_frame log2q argon2 hm freshSeed st sub now h

/-- C10: error atomicity of `POST /api/verify`.  Whenever the endpoint
fails — banned IP (403), trace-data identity mismatch (403), stale seed
before or inside the lock (409), speed too high (400) or bad solution
(400) — the returned state is exactly the state the request arrived with:
`current_seed`, difficulty state, EMA, solve history and the mining-time
accumulator are all untouched; only the success branch mutates state. -/
theorem C10_verify_error_atomicity :
    ∀ (log2q : ℚ → ℚ) (argon2 : Argon2Fn) (hm : List ℕ → List ℕ → List ℕ)
      (freshSeed : String) (st : QState) (sub : Submission) (real_ip : String) (now : ℚ),
      ((verify_solution_q log2q argon2 hm freshSeed st sub real_ip now).2 =
          VerifyResult.accessDenied →
        (verify_solution_q log2q argon2 hm freshSeed st sub real_ip now).1 = st) ∧
      ((verify_solution_q log2q argon2 hm freshSeed st sub real_ip now).2 =
          VerifyResult.identityMismatch →
        (verify_solution_q log2q argon2 hm freshSeed st sub real_ip now).1 = st) ∧
      ((verify_solution_q log2q argon2 hm freshSeed st sub real_ip now).2 =
          VerifyResult.puzzleStale →
        (verify_solution_q log2q argon2 hm freshSeed st sub real_ip now).1 = st) ∧
      ((verify_solution_q log2q argon2 hm freshSeed st sub real_ip now).2 =
          VerifyResult.speedTooHigh →
        (verify_solution_q log2q argon2 hm freshSeed st sub real_ip now).1 = st) ∧
      (∀ m, (verify_solution_q log2q argon2 hm freshSeed st sub real_ip now).2 =
          VerifyResult.badSolution m →
        (verify_solution_q log2q argon2 hm freshSeed st sub real_ip now).1 = st) := by
  intro log2q argon2 hm freshSeed st sub real_ip now
  refine ⟨?_, ?_, ?_, ?_, ?_⟩
  · intro hres
    exact verify_fail_frame _ _ _ _ _ _ _ _ (fun c hc => by rw [hres] at hc; cases hc)
  · intro hres
    exact verify_fail_frame _ _ _ _ _ _ _ _ (fun c hc => by rw [hres] at hc; cases hc)
  · intro hres
    exact verify_fail_frame _ _ _ _ _ _ _ _ (fun c hc => by rw [hres] at hc; cases hc)
  · intro hres
    exact verify_fail_frame _ _ _ _ _ _ _ _ (fun c hc => by rw [hres] at hc; cases hc)
  · intro m hres
    exact verify_fail_frame _ _ _ _ _ _ _ _ (fun c hc => by rw [hres] at hc; cases hc)

end HashPass
